import Mathlib

/-!
Verification development for the Recipe Master single-page application
(`src/app.js`).  The JavaScript source is shallowly embedded: each
JavaScript function used by the specification claims is translated into a
Lean definition over explicit data types, with JavaScript dynamic values
modelled by a `Json` inductive type where the code manipulates parsed JSON
dynamically, and with browser/API effects (toasts, storage writes, network
look-ups) made explicit as data.
-/

/-- Whitespace recognised by JavaScript's `String.prototype.trim`:
tab, line feed, vertical tab, form feed, carriage return, space,
no-break space, BOM, and the Unicode space separators. -/
def isJsWhitespace (c : Char) : Bool :=
  c = '\x09' || c = '\x0a' || c = '\x0b' || c = '\x0c' || c = '\x0d' ||
  c = ' ' || c = '\u00A0' || c = '\uFEFF' ||
  c = '\u1680' || c = '\u2000' || c = '\u2001' || c = '\u2002' ||
  c = '\u2003' || c = '\u2004' || c = '\u2005' || c = '\u2006' ||
  c = '\u2007' || c = '\u2008' || c = '\u2009' || c = '\u200A' ||
  c = '\u2028' || c = '\u2029' || c = '\u202F' || c = '\u205F' ||
  c = '\u3000'

/-- Model of JavaScript `String.prototype.trim`: drop whitespace from both
ends of the string. -/
def jsTrim (s : String) : String :=
  String.mk ((s.data.dropWhile isJsWhitespace).rdropWhile isJsWhitespace)

/-- JavaScript truthiness of a possibly-absent string value (`undefined` and
`null` are modelled as `none`): absent values and the empty string are falsy,
every other string is truthy. -/
def strTruthy : Option String → Bool
  | none => false
  | some s => !(s == "")

/-- One `{ ingredient, measure }` object as pushed by `parseIngredients`. -/
structure IngredientPair where
  ingredient : String
  measure : String
deriving DecidableEq, Repr

/-- A raw recipe record as returned by TheMealDB API (`meal` objects in
`src/app.js`).  Fields that the API may return as `null` (or that may be
missing) are `Option String`; the 20 positional ingredient and measure
fields `strIngredient1..20` / `strMeasure1..20` are stored as lists indexed
by slot, where a missing entry (index out of range) models `undefined` and
a `none` entry models `null`. -/
structure Meal where
  idMeal : String
  strMeal : String
  strMealThumb : String
  strCategory : Option String := none
  strArea : Option String := none
  strInstructions : Option String := none
  strYoutube : Option String := none
  strTags : Option String := none
  ingredientSlots : List (Option String) := []
  measureSlots : List (Option String) := []
deriving DecidableEq, Repr

/-- Access `meal[strIngredient_i]` for the 1-based slot index `i`
(`none` when the field is `null`, missing, or the index is out of range). -/
def Meal.ingredientSlot (meal : Meal) (i : Nat) : Option String :=
  (meal.ingredientSlots[i-1]?).getD none

/-- Access `meal[strMeasure_i]` for the 1-based slot index `i`. -/
def Meal.measureSlot (meal : Meal) (i : Nat) : Option String :=
  (meal.measureSlots[i-1]?).getD none

/-- Body of the loop in `parseIngredients` (`src/app.js:169-179`): given the
slot's ingredient and measure fields, produce the pushed pair, if any.
`if (ingredient && ingredient.trim())` requires the ingredient to be a
truthy string whose trim is also truthy; the pushed measure is
`measure ? measure.trim() : ''`. -/
def slotPair (ingredient mea : Option String) : Option IngredientPair :=
  if strTruthy ingredient && strTruthy (ingredient.map jsTrim) then
    some { ingredient := jsTrim (ingredient.getD "")
           measure := if strTruthy mea then jsTrim (mea.getD "") else "" }
  else
    none

/-- `parseIngredients` (`src/app.js:166-182`): scan slots 1..20 in ascending
order and collect the pairs whose ingredient field is truthy with a truthy
trim. -/
def parseIngredients (meal : Meal) : List IngredientPair :=
  (List.range 20).filterMap fun k =>
    slotPair (meal.ingredientSlot (k+1)) (meal.measureSlot (k+1))

/-- Restatement of the Normalizer contract in the specification's own words
(spec §4.1 / claim C1): one pair for every positional slot 1..20 whose
ingredient name is non-empty after trimming whitespace, in ascending slot
order, the measure text defaulting to the empty string when the measure
field is absent. -/
def specIngredientPairs (meal : Meal) : List IngredientPair :=
  (((List.range 20).map (· + 1)).filter
      (fun i => !(jsTrim ((meal.ingredientSlot i).getD "") == ""))).map
    (fun i => { ingredient := jsTrim ((meal.ingredientSlot i).getD "")
                measure := jsTrim ((meal.measureSlot i).getD "") })

/-- The example record of spec §8: ingredient slot 1 = "Flour" with measure
"200g", slot 2 blank, slot 3 = "Salt" with no measure. -/
def flourSaltMeal : Meal :=
  { idMeal := "1"
    strMeal := "Example"
    strMealThumb := ""
    ingredientSlots := [some "Flour", some "", some "Salt"]
    measureSlots := [some "200g"] }

/-- A toast notification as raised by `showToast` (`src/app.js:221`):
a message and a type string among "success", "error", "info". -/
structure Toast where
  message : String
  kind : String
deriving DecidableEq, Repr

/-- Result of one cookbook mutation: the new cookbook contents, the toasts
raised, and whether `saveCookbookToStorage` was invoked (persistence
write). -/
structure OpResult where
  cookbook : List Meal
  toasts : List Toast
  storageWrite : Bool
deriving DecidableEq, Repr

/-- `isInCookbook` (`src/app.js:189-191`): whether some cookbook entry has
the given meal id. -/
def isInCookbook (cookbook : List Meal) (mealId : String) : Bool :=
  cookbook.any fun meal => meal.idMeal == mealId

/-- `addToCookbook` (`src/app.js:612-625`): when the id is already present,
raise an info toast and return; otherwise push the meal, raise a success
toast, and save to storage. -/
def addToCookbook (cookbook : List Meal) (meal : Meal) : OpResult :=
  if isInCookbook cookbook meal.idMeal then
    { cookbook := cookbook
      toasts := [{ message := "This recipe is already in your cookbook"
                   kind := "info" }]
      storageWrite := false }
  else
    { cookbook := cookbook ++ [meal]
      toasts := [{ message := "\"" ++ meal.strMeal ++ "\" added to cookbook"
                   kind := "success" }]
      storageWrite := true }

/-- `removeFromCookbook` (`src/app.js:631-644`): find the first index whose
entry has the given id; when found, splice it out, raise an info toast, and
save to storage; otherwise do nothing. -/
def removeFromCookbook (cookbook : List Meal) (mealId : String) : OpResult :=
  match cookbook.findIdx? (fun meal => meal.idMeal == mealId) with
  | some index =>
      { cookbook := cookbook.eraseIdx index
        toasts := [{ message :=
                      "\"" ++ ((cookbook[index]?).map Meal.strMeal).getD "" ++
                        "\" removed from cookbook"
                     kind := "info" }]
        storageWrite := true }
  | none =>
      { cookbook := cookbook, toasts := [], storageWrite := false }

/-- `clearCookbook` (`src/app.js:649-663`): a no-op on an empty cookbook;
otherwise, if the user confirms, empty the collection, raise an info toast,
and save to storage. -/
def clearCookbook (cookbook : List Meal) (confirmed : Bool) : OpResult :=
  if cookbook.length = 0 then
    { cookbook := cookbook, toasts := [], storageWrite := false }
  else if confirmed then
    { cookbook := [], toasts := [{ message := "Cookbook cleared", kind := "info" }]
      storageWrite := true }
  else
    { cookbook := cookbook, toasts := [], storageWrite := false }

/-- JSON values, used to model the dynamic JavaScript values produced by
`JSON.parse` and consumed by `JSON.stringify`.  Numbers are modelled as
integers (no recipe data contains fractional numbers; a fractional literal
is treated as unparseable by the model parser). -/
inductive Json where
  | null
  | bool (b : Bool)
  | num (n : Int)
  | str (s : String)
  | arr (elems : List Json)
  | obj (fields : List (String × Json))
deriving Repr

/-- Skip JSON insignificant whitespace (space, tab, line feed, carriage
return). -/
def skipWs : List Char → List Char
  | c :: cs =>
      if c = ' ' || c = '\x09' || c = '\x0a' || c = '\x0d' then skipWs cs
      else c :: cs
  | [] => []

/-- Value of a hexadecimal digit character. -/
def hexVal (c : Char) : Option Nat :=
  if '0' ≤ c ∧ c ≤ '9' then some (c.toNat - '0'.toNat)
  else if 'a' ≤ c ∧ c ≤ 'f' then some (c.toNat - 'a'.toNat + 10)
  else if 'A' ≤ c ∧ c ≤ 'F' then some (c.toNat - 'A'.toNat + 10)
  else none

/-- Decode one escape sequence after a backslash inside a JSON string
literal: the named escapes, or `\\u` followed by four hex digits. -/
def parseEscape : List Char → Option (Char × List Char)
  | [] => none
  | e :: rest =>
    if e = '"' then some ('"', rest)
    else if e = '\\' then some ('\\', rest)
    else if e = '/' then some ('/', rest)
    else if e = 'b' then some ('\x08', rest)
    else if e = 'f' then some ('\x0c', rest)
    else if e = 'n' then some ('\x0a', rest)
    else if e = 'r' then some ('\x0d', rest)
    else if e = 't' then some ('\x09', rest)
    else if e = 'u' then
      match rest with
      | h1 :: h2 :: h3 :: h4 :: rest3 =>
        match hexVal h1, hexVal h2, hexVal h3, hexVal h4 with
        | some a, some b, some c2, some d =>
            some (Char.ofNat (((a * 16 + b) * 16 + c2) * 16 + d), rest3)
        | _, _, _, _ => none
      | _ => none
    else none

/-- Parse the body of a JSON string literal (after the opening quote),
handling escape sequences; returns the decoded string and the input after
the closing quote. -/
def parseStringBody : Nat → List Char → List Char → Option (String × List Char)
  | 0, _, _ => none
  | _, [], _ => none
  | fuel+1, c :: rest, acc =>
    if c = '"' then some (String.mk acc.reverse, rest)
    else if c = '\\' then
      match parseEscape rest with
      | some pair => parseStringBody fuel pair.2 (pair.1 :: acc)
      | none => none
    else parseStringBody fuel rest (c :: acc)

/-- Split a leading run of decimal digits off a character list. -/
def takeDigits : List Char → List Char × List Char
  | c :: cs =>
      if c.isDigit then
        let (ds, rest) := takeDigits cs
        (c :: ds, rest)
      else ([], c :: cs)
  | [] => ([], [])

/-- Numeric value of a digit run. -/
def digitsToNat (ds : List Char) : Nat :=
  ds.foldl (fun a c => a * 10 + (c.toNat - '0'.toNat)) 0

/-- Parse the tail of the literal `null` (after its first character). -/
def parseNullBody : List Char → Option (Json × List Char)
  | 'u' :: 'l' :: 'l' :: r => some (.null, r)
  | _ => none

/-- Parse the tail of the literal `true`. -/
def parseTrueBody : List Char → Option (Json × List Char)
  | 'r' :: 'u' :: 'e' :: r => some (.bool true, r)
  | _ => none

/-- Parse the tail of the literal `false`. -/
def parseFalseBody : List Char → Option (Json × List Char)
  | 'a' :: 'l' :: 's' :: 'e' :: r => some (.bool false, r)
  | _ => none

/-- Parse an integer numeral from its digit run (`neg` when a minus sign
was consumed). -/
def parseNumBody (neg : Bool) (cs : List Char) : Option (Json × List Char) :=
  match takeDigits cs with
  | ([], _) => none
  | (ds, r) =>
      some (.num (if neg then -(digitsToNat ds : Int) else (digitsToNat ds : Int)), r)

mutual

/-- Recursive-descent JSON value parser (model of `JSON.parse`), consuming
leading whitespace; integer numerals only. -/
def parseValue : Nat → List Char → Option (Json × List Char)
  | 0, _ => none
  | fuel+1, cs =>
    match skipWs cs with
    | [] => none
    | c :: rest =>
      if c = 'n' then parseNullBody rest
      else if c = 't' then parseTrueBody rest
      else if c = 'f' then parseFalseBody rest
      else if c = '"' then
        (parseStringBody (fuel+1) rest []).map fun sr => (.str sr.1, sr.2)
      else if c = '-' then parseNumBody true rest
      else if c.isDigit then parseNumBody false (c :: rest)
      else if c = '[' then
        match skipWs rest with
        | ']' :: r => some (.arr [], r)
        | other => parseElems fuel other []
      else if c = '\x7b' then
        match skipWs rest with
        | '\x7d' :: r => some (.obj [], r)
        | other => parseFields fuel other []
      else none

/-- Parse the elements of a non-empty JSON array (after `[`). -/
def parseElems : Nat → List Char → List Json → Option (Json × List Char)
  | 0, _, _ => none
  | fuel+1, cs, acc =>
    match parseValue fuel cs with
    | none => none
    | some (v, rest) =>
      match skipWs rest with
      | ',' :: r => parseElems fuel r (v :: acc)
      | ']' :: r => some (.arr (v :: acc).reverse, r)
      | _ => none

/-- Parse the fields of a non-empty JSON object (after the opening brace). -/
def parseFields : Nat → List Char → List (String × Json) →
    Option (Json × List Char)
  | 0, _, _ => none
  | fuel+1, cs, acc =>
    match skipWs cs with
    | '"' :: rest =>
      match parseStringBody (fuel+1) rest [] with
      | none => none
      | some (key, rest2) =>
        match skipWs rest2 with
        | ':' :: rest3 =>
          match parseValue fuel rest3 with
          | none => none
          | some (v, rest4) =>
            match skipWs rest4 with
            | ',' :: r => parseFields fuel r ((key, v) :: acc)
            | '\x7d' :: r => some (.obj ((key, v) :: acc).reverse, r)
            | _ => none
        | _ => none
    | _ => none

end

/-- Model of `JSON.parse`: parse one JSON value followed only by whitespace;
`none` models a thrown `SyntaxError`. -/
def parseJson (s : String) : Option Json :=
  match parseValue (2 * s.length + 4) s.data with
  | some (v, rest) => if skipWs rest = [] then some v else none
  | none => none

/-- Look up a field of a parsed JSON object; on duplicate keys `JSON.parse`
keeps the last occurrence, so the lookup scans from the right. -/
def lookupField (fields : List (String × Json)) (name : String) : Option Json :=
  (fields.reverse.find? fun kv => kv.1 == name).map Prod.snd

/-- JavaScript property access `v[name]` on a parsed-JSON value:
accessing a property of `null` throws a `TypeError` (modelled as `.error`),
strings and arrays expose their `length`, objects expose their fields, and
any other access yields `undefined` (modelled as `.ok none`).  String
`length` counts characters; for the recipe data in scope this agrees with
JavaScript's UTF-16 unit count whenever the comparison `length === 0` is
what matters. -/
def getProp (v : Json) (name : String) : Except Unit (Option Json) :=
  match v with
  | .null => .error ()
  | .obj fields => .ok (lookupField fields name)
  | .str s => if name = "length" then .ok (some (.num s.length)) else .ok none
  | .arr xs => if name = "length" then .ok (some (.num xs.length)) else .ok none
  | .bool _ => .ok none
  | .num _ => .ok none

/-- Property access that treats a throw as `undefined`; used where the claim
only needs the value (e.g. reading `idMeal` off a loaded entry). -/
def getPropOpt (v : Json) (name : String) : Option Json :=
  match getProp v name with
  | .error _ => none
  | .ok o => o

/-- Whether a JSON value is `null`. -/
def Json.isNull : Json → Bool
  | .null => true
  | _ => false

/-- Whether a JavaScript value compares `=== 0` (for the `length` read in
`renderCookbook`): only the number `0` does; `undefined` (`none`) does
not. -/
def isNumZero : Option Json → Bool
  | some (.num n) => n == 0
  | _ => false

/-- Whether `renderCookbook()` (`src/app.js:489-511`) throws a `TypeError`
when `state.cookbook` holds the given parsed-JSON value:
`state.cookbook.length` throws on `null`; when the length does not compare
`=== 0`, `state.cookbook.forEach` throws unless the value is an array, and
`createCookbookItem` throws on a `null` element (property access on
`null`). -/
def renderCookbookThrows (cookbook : Json) : Bool :=
  match getProp cookbook "length" with
  | .error _ => true
  | .ok lenv =>
    if isNumZero lenv then false
    else
      match cookbook with
      | .arr xs => xs.any fun m => m.isNull
      | _ => true

/-- Result of `loadCookbookFromStorage`: the final `state.cookbook` value,
the toasts raised (always none: a failure is only logged to the console),
and whether anything was written back to storage (never: the function only
reads). -/
structure LoadResult where
  cookbook : Json
  toasts : List Toast
  storageWrite : Bool
deriving Repr

/-- `loadCookbookFromStorage` (`src/app.js:679-690`): read the stored string
(`none` models an absent key, which `localStorage.getItem` returns as
`null`); a falsy value (absent, or the empty string) leaves the initial
`state.cookbook = []` untouched; otherwise `JSON.parse` the string and call
`renderCookbook()`, and if either throws, the `catch` sets
`state.cookbook = []`. -/
def loadCookbookFromStorage (stored : Option String) : LoadResult :=
  match stored with
  | none => { cookbook := .arr [], toasts := [], storageWrite := false }
  | some saved =>
    if saved = "" then { cookbook := .arr [], toasts := [], storageWrite := false }
    else
      match parseJson saved with
      | none => { cookbook := .arr [], toasts := [], storageWrite := false }
      | some v =>
        if renderCookbookThrows v then
          { cookbook := .arr [], toasts := [], storageWrite := false }
        else
          { cookbook := v, toasts := [], storageWrite := false }

/-- The recipe ids of a loaded cookbook value: the `idMeal` property of each
entry when the value is an array (a non-array value has no entries). -/
def jsonCookbookIds : Json → List (Option Json)
  | .arr xs => xs.map fun m => getPropOpt m "idMeal"
  | _ => []

/-- Whether a loaded cookbook value is a well-formed collection (an array). -/
def isJsonArray : Json → Bool
  | .arr _ => true
  | _ => false

/-- One lowercase hexadecimal digit. -/
def hexDigit (n : Nat) : Char :=
  if n < 10 then Char.ofNat ('0'.toNat + n) else Char.ofNat ('a'.toNat + (n - 10))

/-- Escaping of one character inside a JSON string literal, as performed by
`JSON.stringify`: quote, backslash, and the named control escapes, with the
remaining control characters written as `\u00xx`. -/
def escapeJsonChar (c : Char) : List Char :=
  if c = '"' then ['\\', '"']
  else if c = '\\' then ['\\', '\\']
  else if c = '\x08' then ['\\', 'b']
  else if c = '\x09' then ['\\', 't']
  else if c = '\x0a' then ['\\', 'n']
  else if c = '\x0c' then ['\\', 'f']
  else if c = '\x0d' then ['\\', 'r']
  else if c.toNat < 32 then
    ['\\', 'u', '0', '0', hexDigit (c.toNat / 16), hexDigit (c.toNat % 16)]
  else [c]

/-- A JSON string literal for `s`, escaped as by `JSON.stringify`. -/
def quoteJsonString (s : String) : String :=
  "\"" ++ String.mk ((s.data.map escapeJsonChar).flatten) ++ "\""

mutual

/-- `JSON.stringify(v, null, 2)`: pretty-print a JSON value, with the given
current indentation (the indentation in force at the line on which the
value's closing bracket sits). -/
def stringifyVal (ind : String) : Json → String
  | .null => "null"
  | .bool true => "true"
  | .bool false => "false"
  | .num n => toString n
  | .str s => quoteJsonString s
  | .arr [] => "[]"
  | .arr (x :: xs) =>
      "[\x0a" ++ stringifyElems (ind ++ "  ") x xs ++ "\x0a" ++ ind ++ "]"
  | .obj [] => "\x7b\x7d"
  | .obj ((k, v) :: fs) =>
      "\x7b\x0a" ++ stringifyFields (ind ++ "  ") k v fs ++ "\x0a" ++ ind ++ "\x7d"
termination_by v => sizeOf v

/-- The comma-and-newline separated, indented element lines of a non-empty
pretty-printed array. -/
def stringifyElems (ind : String) (x : Json) : List Json → String
  | [] => ind ++ stringifyVal ind x
  | y :: ys => ind ++ stringifyVal ind x ++ ",\x0a" ++ stringifyElems ind y ys
termination_by xs => sizeOf x + sizeOf xs

/-- The field lines of a non-empty pretty-printed object. -/
def stringifyFields (ind : String) (k : String) (v : Json) :
    List (String × Json) → String
  | [] => ind ++ quoteJsonString k ++ ": " ++ stringifyVal ind v
  | (k2, v2) :: gs =>
      ind ++ quoteJsonString k ++ ": " ++ stringifyVal ind v ++ ",\x0a" ++
        stringifyFields ind k2 v2 gs
termination_by fs => sizeOf v + sizeOf fs

end

/-- A JSON string value for a nullable API text field (`null` when the field
is absent). -/
def optStrJson : Option String → Json
  | none => .null
  | some s => .str s

/-- The simplified record built for one meal by the JSON branch of
`formatCookbookForExport` (`src/app.js:703-711`). -/
def exportRecordJson (meal : Meal) : Json :=
  .obj [("id", .str meal.idMeal),
        ("name", .str meal.strMeal),
        ("category", optStrJson meal.strCategory),
        ("area", optStrJson meal.strArea),
        ("instructions", optStrJson meal.strInstructions),
        ("thumbnail", .str meal.strMealThumb),
        ("ingredients", .arr ((parseIngredients meal).map fun pair =>
            .obj [("ingredient", .str pair.ingredient),
                  ("measure", .str pair.measure)]))]

/-- The JSON document serialized by the JSON branch of
`formatCookbookForExport`: the array of simplified records. -/
def exportJsonDoc (cookbook : List Meal) : Json :=
  .arr (cookbook.map exportRecordJson)

/-- The text rendered for one meal section of the text export. -/
def exportTxtSection (index : Nat) (meal : Meal) : String :=
  "----------------------------------------\x0a" ++
  "Recipe " ++ toString (index + 1) ++ ": " ++ meal.strMeal ++ "\x0a" ++
  "----------------------------------------\x0a\x0a" ++
  "Category: " ++ (if strTruthy meal.strCategory then meal.strCategory.getD ""
                   else "N/A") ++ "\x0a" ++
  "Cuisine: " ++ (if strTruthy meal.strArea then meal.strArea.getD ""
                  else "International") ++ "\x0a\x0a" ++
  "INGREDIENTS:\x0a" ++
  String.join ((parseIngredients meal).map fun pair =>
    "  - " ++ pair.measure ++ " " ++ pair.ingredient ++ "\x0a") ++
  "\x0aINSTRUCTIONS:\x0a" ++
  (if strTruthy meal.strInstructions then meal.strInstructions.getD ""
   else "No instructions available.") ++ "\x0a\x0a" ++
  (if strTruthy meal.strYoutube then
    "Video: " ++ meal.strYoutube.getD "" ++ "\x0a\x0a"
   else "") ++
  "\x0a"

/-- `formatCookbookForExport` (`src/app.js:701-751`): the `'json'` format is
`JSON.stringify(simplifiedRecords, null, 2)`; any other format produces the
banner-framed text document.  The date printed in the text banner is passed
in (`new Date().toLocaleDateString()` in the source). -/
def formatCookbookForExport (cookbook : List Meal) (format : String)
    (dateStr : String) : String :=
  if format = "json" then
    stringifyVal "" (exportJsonDoc cookbook)
  else
    "========================================\x0a" ++
    "        MY RECIPE COOKBOOK\x0a" ++
    "   Exported from Recipe Master\x0a" ++
    "   Date: " ++ dateStr ++ "\x0a" ++
    "========================================\x0a\x0a" ++
    String.join (cookbook.enum.map fun im => exportTxtSection im.1 im.2) ++
    "========================================\x0a" ++
    "  Thank you for using Recipe Master!\x0a" ++
    "========================================\x0a"

/-- Observable outcome of `exportCookbook` (`src/app.js:756-802`) and its
fallback (`src/app.js:807-821`): toasts raised, whether the native save
dialog was opened, whether a forced browser download was triggered, and the
file content produced (if any). -/
structure ExportOutcome where
  toasts : List Toast
  dialogOpened : Bool
  downloadTriggered : Bool
  content : Option String
deriving DecidableEq, Repr

/-- `exportCookbook` (`src/app.js:756-802`): an empty cookbook is rejected
up front with an error toast.  Otherwise, when `showSaveFilePicker` exists,
the dialog result is modelled by `pickedFileName` (`none` = the user
cancelled, an `AbortError`, which returns silently); the chosen extension
picks the format.  Without the picker capability, `fallbackExport` forces a
download of the text format. -/
def exportCookbook (cookbook : List Meal) (hasSavePicker : Bool)
    (pickedFileName : Option String) (dateStr : String) : ExportOutcome :=
  if cookbook.length = 0 then
    { toasts := [{ message := "Your cookbook is empty. Add some recipes first!"
                   kind := "error" }]
      dialogOpened := false
      downloadTriggered := false
      content := none }
  else if hasSavePicker then
    match pickedFileName with
    | none =>
        { toasts := [], dialogOpened := true, downloadTriggered := false
          content := none }
    | some fileName =>
        let format := if fileName.endsWith ".json" then "json" else "txt"
        { toasts := [{ message := "Cookbook exported successfully as " ++ fileName
                       kind := "success" }]
          dialogOpened := true
          downloadTriggered := false
          content := some (formatCookbookForExport cookbook format dateStr) }
  else
    { toasts := [{ message := "Cookbook downloaded successfully"
                   kind := "success" }]
      dialogOpened := false
      downloadTriggered := true
      content := some (formatCookbookForExport cookbook "txt" dateStr) }

/-- Reading one ingredient object back out of a parsed export document. -/
def decodeIngredientPair : Json → Option IngredientPair
  | .obj fields =>
      match lookupField fields "ingredient", lookupField fields "measure" with
      | some (.str i), some (.str m) => some { ingredient := i, measure := m }
      | _, _ => none
  | _ => none

/-- The (id, name, ingredient list) triple read back out of one parsed
export record; `none` when the record does not have the expected shape. -/
def decodeExportEntry (v : Json) :
    Option (String × String × List IngredientPair) :=
  match v with
  | .obj fields =>
      match lookupField fields "id", lookupField fields "name",
          lookupField fields "ingredients" with
      | some (.str id), some (.str name), some (.arr ings) =>
          (ings.mapM decodeIngredientPair).map fun pairs => (id, name, pairs)
      | _, _, _ => none
  | _ => none

/-- Reading the full parsed export document back as a list of
(id, name, ingredients) records. -/
def decodeExportDoc : Json → Option (List (String × String × List IngredientPair))
  | .arr entries => entries.mapM decodeExportEntry
  | _ => none

/-- A meal as returned by the category filter endpoint
(`filter.php`): name, thumbnail and id only (spec §4.3). -/
structure MealStub where
  idMeal : String
  strMeal : String
  strMealThumb : String
deriving DecidableEq, Repr

/-- The state of the results pane after a category selection. -/
inductive Pane where
  | idle
  | emptyMessage (title subtitle : String)
  | results (meals : List Meal)
deriving DecidableEq, Repr

/-- Observable outcome of `selectCategory`: the new
`state.activeCategory`, how many filter (`filter.php`) calls were made,
the ids passed to `getMealById` detail look-ups, the resulting pane, and
any toasts. -/
structure SelectResult where
  newActiveCategory : Option String
  filterCalls : Nat
  detailLookups : List String
  pane : Pane
  toasts : List Toast
deriving DecidableEq, Repr

/-- The category backfill inside `selectCategory`
(`src/app.js:883-887`): `if (!meal.strCategory) meal.strCategory =
categoryName` — a falsy category (absent or empty) is replaced. -/
def backfillCategory (categoryName : String) (meal : Meal) : Meal :=
  if strTruthy meal.strCategory then meal
  else { meal with strCategory := some categoryName }

/-- `selectCategory` (`src/app.js:847-905`): clicking the active category
deselects it via `clearActiveCategory` (`src/app.js:910-921`), clearing the
results pane and making no network call.  Otherwise the category's filtered
meal list is fetched; an empty list shows the empty-state message; a
non-empty list leads to detail look-ups for the first 20 stubs in order
(`meals.slice(0, 20)` mapped through `getMealById` under `Promise.all`),
`null` detail results are filtered out, the category is backfilled onto the
survivors, and they become the results.  The look-up oracle is modelled as
a function from id to the resolved detail record (`none` = the API
resolved "no such meal"); the network-rejection branch is not modelled. -/
def selectCategory (activeCategory : Option String) (categoryName : String)
    (filterResult : List MealStub) (lookup : String → Option Meal) :
    SelectResult :=
  if activeCategory = some categoryName then
    { newActiveCategory := none, filterCalls := 0, detailLookups := []
      pane := .idle, toasts := [] }
  else if filterResult.length = 0 then
    { newActiveCategory := some categoryName, filterCalls := 1
      detailLookups := []
      pane := .emptyMessage "No recipes found"
        ("No recipes found in the \"" ++ categoryName ++ "\" category.")
      toasts := [] }
  else
    let mealsToFetch := filterResult.take 20
    let fullMeals := mealsToFetch.map fun stub => lookup stub.idMeal
    let validMeals := fullMeals.filterMap id
    { newActiveCategory := some categoryName, filterCalls := 1
      detailLookups := mealsToFetch.map MealStub.idMeal
      pane := .results (validMeals.map (backfillCategory categoryName))
      toasts := [] }

/-- The recipe ids of a (typed) cookbook, in order. -/
def cookbookIds (cookbook : List Meal) : List String :=
  cookbook.map Meal.idMeal

/-- A sample saved recipe used to instantiate the cookbook theorems. -/
def sampleMealA : Meal :=
  { idMeal := "52772", strMeal := "Teriyaki Chicken", strMealThumb := "t.jpg" }

/-- A 25-entry category filter result, as in the spec §8 scenario. -/
def seafoodStubs25 : List MealStub :=
  (List.range 25).map fun i =>
    { idMeal := toString i, strMeal := "m", strMealThumb := "t" }

/-- A detail look-up oracle that resolves every id. -/
def seafoodLookup : String → Option Meal := fun id =>
  some { idMeal := id, strMeal := "m", strMealThumb := "t" }
/-- JSON insignificant whitespace (space, tab, line feed, carriage
return), as skipped by `skipWs`. -/
def isJsonWsChar (c : Char) : Bool :=
  c = ' ' || c = '\x09' || c = '\x0a' || c = '\x0d'

/-- The escaped character sequence `JSON.stringify` produces for the body
of a string literal. -/
def escList (cs : List Char) : List Char :=
  (cs.map escapeJsonChar).flatten

mutual

/-- Whether a JSON value contains no numbers (the export documents in this
development never do; the model parser reads integer numerals only). -/
def numFree : Json → Bool
  | .null => true
  | .bool _ => true
  | .num _ => false
  | .str _ => true
  | .arr xs => numFreeList xs
  | .obj fs => numFreeFields fs
termination_by v => sizeOf v

def numFreeList : List Json → Bool
  | [] => true
  | x :: xs => numFree x && numFreeList xs
termination_by xs => sizeOf xs

def numFreeFields : List (String × Json) → Bool
  | [] => true
  | (_, v) :: fs => numFree v && numFreeFields fs
termination_by fs => sizeOf fs

end

/-- The characters a non-empty pretty-printed array contributes after its
first element's indentation, through the closing bracket. -/
def elemsCore (ind2 ind : String) : Json → List Json → List Char
  | x, [] => (stringifyVal ind2 x).data ++ '\x0a' :: (ind.data ++ [']'])
  | x, y :: ys =>
      (stringifyVal ind2 x).data ++ ',' :: '\x0a' ::
        (ind2.data ++ elemsCore ind2 ind y ys)

def fieldsCore (ind2 ind : String) :
    String → Json → List (String × Json) → List Char
  | k, v, [] =>
      (quoteJsonString k).data ++ ':' :: ' ' ::
        ((stringifyVal ind2 v).data ++ '\x0a' :: (ind.data ++ ['\x7d']))
  | k, v, (k2, v2) :: fs =>
      (quoteJsonString k).data ++ ':' :: ' ' ::
        ((stringifyVal ind2 v).data ++ ',' :: '\x0a' ::
          (ind2.data ++ fieldsCore ind2 ind k2 v2 fs))

/-- Dropping leading whitespace again after a right-trim of an already
left-trimmed list changes nothing: the head survived the first trim. -/
theorem dropWhile_rdropWhile_dropWhile (p : α → Bool) (l : List α) :
    ((l.dropWhile p).rdropWhile p).dropWhile p = (l.dropWhile p).rdropWhile p := by
  have h1 : (l.dropWhile p).dropWhile p = l.dropWhile p :=
    List.dropWhile_idempotent p l
  obtain ⟨t, ht⟩ := List.rdropWhile_prefix p (l.dropWhile p)
  cases hr : (l.dropWhile p).rdropWhile p with
  | nil => simp
  | cons a as =>
    have hl1 : l.dropWhile p = a :: (as ++ t) := by
      rw [← ht, hr]; simp
    rw [hl1, List.dropWhile_cons] at h1
    by_cases hpa : p a
    · rw [if_pos hpa] at h1
      have hle := (List.dropWhile_sublist p (l := as ++ t)).length_le
      have hlen := congrArg List.length h1
      simp only [List.length_cons, List.length_append] at hle hlen
      omega
    · rw [List.dropWhile_cons, if_neg hpa]

/-- JavaScript string trimming is idempotent. -/
theorem jsTrim_idem (s : String) : jsTrim (jsTrim s) = jsTrim s := by
  show String.mk _ = String.mk _
  rw [jsTrim]
  show String.mk
      ((((s.data.dropWhile isJsWhitespace).rdropWhile
          isJsWhitespace).dropWhile isJsWhitespace).rdropWhile isJsWhitespace) = _
  rw [dropWhile_rdropWhile_dropWhile, List.rdropWhile_idempotent]


/-- Trimming the empty string gives the empty string. -/
theorem jsTrim_empty : jsTrim "" = "" := rfl

/-- The measure text pushed by `parseIngredients`
(`measure ? measure.trim() : ''`) always equals the trim of the measure
field read with default `""`. -/
theorem measureText_eq (mea : Option String) :
    (if strTruthy mea then jsTrim (mea.getD "") else "") = jsTrim (mea.getD "") := by
  cases mea with
  | none => simp [strTruthy, jsTrim_empty]
  | some m =>
      by_cases hm : m = ""
      · subst hm; simp [strTruthy, jsTrim_empty]
      · simp [strTruthy, hm]

/-- The guard `ingredient && ingredient.trim()` is equivalent to the
ingredient's trim (with default `""`) being non-empty. -/
theorem slot_cond_eq (ing : Option String) :
    (strTruthy ing && strTruthy (ing.map jsTrim)) =
      !(jsTrim (ing.getD "") == "") := by
  cases ing with
  | none => simp [strTruthy, jsTrim_empty]
  | some s =>
      by_cases hs : s = ""
      · subst hs; simp [strTruthy, jsTrim_empty]
      · simp [strTruthy, hs]

/-- Closed form of the loop body of `parseIngredients`. -/
theorem slotPair_eq (ing mea : Option String) :
    slotPair ing mea =
      if !(jsTrim (ing.getD "") == "") then
        some { ingredient := jsTrim (ing.getD "")
               measure := jsTrim (mea.getD "") }
      else none := by
  unfold slotPair
  rw [measureText_eq, slot_cond_eq]

/-- A `filterMap` whose function is a guarded `some` is a filter followed by
a map. -/
theorem filterMap_ite_map {α β γ : Type} (q : α → Bool) (f : α → β) (h : γ → α)
    (l : List γ) :
    l.filterMap (fun a => if q (h a) then some (f (h a)) else none) =
      ((l.map h).filter q).map f := by
  induction l with
  | nil => simp
  | cons a l ih =>
      by_cases hq : q (h a) <;>
        simp [List.filterMap_cons, List.filter_cons, hq, ih]

/-- C1: for every raw recipe record, `parseIngredients` returns exactly the
(ingredientName, measureText) pairs for the positional slots 1..20 whose
ingredient field is non-empty after trimming, in ascending slot order, the
measure being `""` when absent (the contract stated by `specIngredientPairs`);
missing fields never cause an error (the functions are total); and the
spec §8 example record yields `[("Flour","200g"), ("Salt","")]`. -/
theorem parseIngredients_matches_spec :
    (∀ meal : Meal, parseIngredients meal = specIngredientPairs meal) ∧
    parseIngredients flourSaltMeal =
      [{ ingredient := "Flour", measure := "200g" },
       { ingredient := "Salt", measure := "" }] := by
  constructor
  · intro meal
    rw [parseIngredients]
    have h1 : (fun k => slotPair (meal.ingredientSlot (k+1)) (meal.measureSlot (k+1))) =
        (fun k =>
          if (fun i => !(jsTrim ((meal.ingredientSlot i).getD "") == "")) ((fun x => x + 1) k) then
            some ((fun i => ({ ingredient := jsTrim ((meal.ingredientSlot i).getD "")
                               measure := jsTrim ((meal.measureSlot i).getD "") } : IngredientPair))
                  ((fun x => x + 1) k))
          else none) := by
      funext k
      exact slotPair_eq _ _
    rw [h1]
    exact filterMap_ite_map
      (fun i => !(jsTrim ((meal.ingredientSlot i).getD "") == ""))
      (fun i => ({ ingredient := jsTrim ((meal.ingredientSlot i).getD "")
                   measure := jsTrim ((meal.measureSlot i).getD "") } : IngredientPair))
      (fun x => x + 1) (List.range 20)
  · decide

/-- C10: whenever a slot's ingredient is non-blank after trimming and its
measure field is a present string, the pair pushed for that slot carries the
trimmed measure and the trimmed name; consequently no string in the output
of `parseIngredients` has leading or trailing whitespace, and the output
never has more than 20 pairs. -/
theorem parseIngredients_trims (meal : Meal) :
    (∀ k, k < 20 → ∀ s m, meal.ingredientSlot (k+1) = some s →
        meal.measureSlot (k+1) = some m → jsTrim s ≠ "" →
        slotPair (meal.ingredientSlot (k+1)) (meal.measureSlot (k+1)) =
          some { ingredient := jsTrim s, measure := jsTrim m }) ∧
    (∀ pair ∈ parseIngredients meal,
        jsTrim pair.ingredient = pair.ingredient ∧
        jsTrim pair.measure = pair.measure) ∧
    (parseIngredients meal).length ≤ 20 := by
  refine ⟨?_, ?_, ?_⟩
  · intro k _ s m hs hm hts
    rw [hs, hm, slotPair_eq]
    simp [hts]
  · intro pair hp
    rw [parseIngredients, List.mem_filterMap] at hp
    obtain ⟨k, _, hk⟩ := hp
    rw [slotPair_eq] at hk
    split at hk
    · cases hk
      exact ⟨jsTrim_idem _, jsTrim_idem _⟩
    · cases hk
  · calc (parseIngredients meal).length ≤ (List.range 20).length :=
          List.length_filterMap_le _ _
      _ = 20 := by simp

/-- Witness for C10 at the spec §8 example record. -/
theorem parseIngredients_trims_witness :
    slotPair (flourSaltMeal.ingredientSlot 1) (flourSaltMeal.measureSlot 1) =
      some { ingredient := "Flour", measure := "200g" } ∧
    (parseIngredients flourSaltMeal).length ≤ 20 := by
  constructor
  · have h := (parseIngredients_trims flourSaltMeal).1 0 (by decide)
      "Flour" "200g" rfl rfl (by decide)
    rw [(rfl : jsTrim "Flour" = "Flour"), (rfl : jsTrim "200g" = "200g")] at h
    exact h
  · exact (parseIngredients_trims flourSaltMeal).2.2

/-- C4: adding a recipe whose id is already in the cookbook is a no-op that
leaves the collection unchanged, raises the informational (not success)
notice, and writes nothing to storage; adding a fresh id appends the recipe
at the end, raises a success notice, and persists. -/
theorem addToCookbook_spec (cookbook : List Meal) (meal : Meal) :
    (isInCookbook cookbook meal.idMeal = true →
      addToCookbook cookbook meal =
        { cookbook := cookbook
          toasts := [{ message := "This recipe is already in your cookbook"
                       kind := "info" }]
          storageWrite := false } ∧
      ("info" : String) ≠ "success") ∧
    (isInCookbook cookbook meal.idMeal = false →
      addToCookbook cookbook meal =
        { cookbook := cookbook ++ [meal]
          toasts := [{ message := "\"" ++ meal.strMeal ++ "\" added to cookbook"
                       kind := "success" }]
          storageWrite := true }) := by
  constructor
  · intro h
    exact ⟨by simp [addToCookbook, h], by decide⟩
  · intro h
    simp [addToCookbook, h]

/-- Witness for C4: adding a present id changes nothing; adding to an empty
cookbook appends. -/
theorem addToCookbook_spec_witness :
    (addToCookbook [sampleMealA] sampleMealA).cookbook = [sampleMealA] ∧
    (addToCookbook [] sampleMealA).cookbook = [sampleMealA] := by
  constructor
  · rw [((addToCookbook_spec [sampleMealA] sampleMealA).1 (by decide)).1]
  · rw [(addToCookbook_spec [] sampleMealA).2 (by decide)]
    rfl

/-- C5: removing an id that is not in the cookbook leaves the collection
unchanged and writes nothing to storage; removing a present id deletes the
first matching entry (at the first index whose entry matches, every earlier
entry not matching) and persists. -/
theorem removeFromCookbook_spec (cookbook : List Meal) (mealId : String) :
    (isInCookbook cookbook mealId = false →
      removeFromCookbook cookbook mealId =
        { cookbook := cookbook, toasts := [], storageWrite := false }) ∧
    (isInCookbook cookbook mealId = true →
      ∃ index m0, cookbook[index]? = some m0 ∧ m0.idMeal = mealId ∧
        (∀ j, j < index → ∀ mj, cookbook[j]? = some mj → mj.idMeal ≠ mealId) ∧
        (removeFromCookbook cookbook mealId).cookbook = cookbook.eraseIdx index ∧
        (removeFromCookbook cookbook mealId).storageWrite = true) := by
  constructor
  · intro h
    have hnone : cookbook.findIdx? (fun m => m.idMeal == mealId) = none := by
      rw [List.findIdx?_eq_none_iff]
      intro x hx
      simp only [isInCookbook, List.any_eq_false] at h
      simpa using h x hx
    simp [removeFromCookbook, hnone]
  · intro h
    obtain ⟨index, hidx⟩ :
        ∃ index, cookbook.findIdx? (fun m => m.idMeal == mealId) = some index := by
      cases hf : cookbook.findIdx? (fun m => m.idMeal == mealId) with
      | some i => exact ⟨i, rfl⟩
      | none =>
          rw [List.findIdx?_eq_none_iff] at hf
          simp only [isInCookbook, List.any_eq_true] at h
          obtain ⟨x, hx, hxx⟩ := h
          have := hf x hx
          simp [this] at hxx
    obtain ⟨hlt, hpi, hbefore⟩ := List.findIdx?_eq_some_iff_getElem.mp hidx
    refine ⟨index, cookbook[index], by simp [List.getElem?_eq_getElem hlt],
      by simpa using hpi, ?_, ?_, ?_⟩
    · intro j hj mj hmj
      have hjlt : j < cookbook.length := by omega
      have := hbefore j hj
      rw [List.getElem?_eq_getElem hjlt] at hmj
      cases hmj
      simpa using this
    · simp [removeFromCookbook, hidx]
    · simp [removeFromCookbook, hidx]

/-- Witness for C5: removing an absent id is a no-op; removing the only
entry empties the cookbook. -/
theorem removeFromCookbook_spec_witness :
    (removeFromCookbook [sampleMealA] "nope").cookbook = [sampleMealA] ∧
    (removeFromCookbook [sampleMealA] "52772").cookbook = [] := by
  constructor
  · rw [(removeFromCookbook_spec [sampleMealA] "nope").1 (by decide)]
  · obtain ⟨index, m0, hm0, _, _, hcb, _⟩ :=
      (removeFromCookbook_spec [sampleMealA] "52772").2 (by decide)
    rw [hcb]
    have hzero : index = 0 := by
      cases index with
      | zero => rfl
      | succ n => simp at hm0
    subst hzero
    rfl

/-- C9: exporting an empty cookbook is rejected synchronously with a
user-visible notice before any file-save mechanism is touched: no save
dialog is opened, no download is triggered, and no file content is
produced — for every save-picker capability and dialog outcome. -/
theorem exportCookbook_empty_rejected (hasSavePicker : Bool)
    (pickedFileName : Option String) (dateStr : String) :
    exportCookbook [] hasSavePicker pickedFileName dateStr =
      { toasts := [{ message := "Your cookbook is empty. Add some recipes first!"
                     kind := "error" }]
        dialogOpened := false
        downloadTriggered := false
        content := none } := rfl

/-- C8: selecting the name of the currently active category deselects it:
the active category becomes none, the results pane goes to the idle state,
and no filter call and no detail look-up is issued. -/
theorem selectCategory_deselect (activeCategory : Option String)
    (categoryName : String) (filterResult : List MealStub)
    (lookup : String → Option Meal)
    (h : activeCategory = some categoryName) :
    selectCategory activeCategory categoryName filterResult lookup =
      { newActiveCategory := none, filterCalls := 0, detailLookups := []
        pane := .idle, toasts := [] } := by
  simp [selectCategory, h]

/-- Witness for C8 at a concrete active category. -/
theorem selectCategory_deselect_witness :
    selectCategory (some "Seafood") "Seafood" [] (fun _ => none) =
      { newActiveCategory := none, filterCalls := 0, detailLookups := []
        pane := .idle, toasts := [] } :=
  selectCategory_deselect _ _ _ _ rfl

/-- C7: when a category selection is not a deselect and the filter call
returns a non-empty list, detail look-ups are issued exactly for the first
`min(n, 20)` filtered entries in list order, detail results that resolve to
absent are discarded rather than failing the batch, the category label is
backfilled onto surviving records with a falsy category, the survivors
become the displayed results, and at most 20 cards can be rendered. -/
theorem selectCategory_detail_fetch (activeCategory : Option String)
    (categoryName : String) (filterResult : List MealStub)
    (lookup : String → Option Meal)
    (hactive : activeCategory ≠ some categoryName)
    (hne : filterResult ≠ []) :
    (selectCategory activeCategory categoryName filterResult lookup).detailLookups =
      (filterResult.take 20).map MealStub.idMeal ∧
    (selectCategory activeCategory categoryName filterResult lookup).detailLookups.length =
      min filterResult.length 20 ∧
    (selectCategory activeCategory categoryName filterResult lookup).pane =
      .results (((filterResult.take 20).filterMap fun stub => lookup stub.idMeal).map
        (backfillCategory categoryName)) ∧
    (∀ shown, (selectCategory activeCategory categoryName filterResult lookup).pane =
        .results shown → shown.length ≤ 20) := by
  have hlen : ¬(filterResult.length = 0) := by
    simpa [List.length_eq_zero] using hne
  refine ⟨?_, ?_, ?_, ?_⟩
  · simp [selectCategory, hactive, hlen]
  · simp [selectCategory, hactive, hlen, List.length_take, Nat.min_comm]
  · simp only [selectCategory, if_neg hactive, if_neg hlen]
    congr 1
    congr 1
    rw [List.filterMap_map]
    rfl
  · intro shown hs
    simp only [selectCategory, if_neg hactive, if_neg hlen, Pane.results.injEq] at hs
    subst hs
    calc ((filterResult.take 20).map (fun stub => lookup stub.idMeal)
            |>.filterMap id |>.map (backfillCategory categoryName)).length
        = ((filterResult.take 20).map (fun stub => lookup stub.idMeal)
            |>.filterMap id).length := by rw [List.length_map]
      _ ≤ ((filterResult.take 20).map (fun stub => lookup stub.idMeal)).length :=
          List.length_filterMap_le _ _
      _ ≤ (filterResult.take 20).length := by rw [List.length_map]
      _ ≤ 20 := List.length_take_le _ _

/-- Witness for C7: a filter result of 25 entries leads to exactly 20
detail look-ups and at most 20 rendered cards. -/
theorem selectCategory_detail_fetch_witness :
    (selectCategory none "Seafood" seafoodStubs25 seafoodLookup).detailLookups.length =
      20 ∧
    (∀ shown, (selectCategory none "Seafood" seafoodStubs25 seafoodLookup).pane =
        .results shown → shown.length ≤ 20) := by
  have h := selectCategory_detail_fetch none "Seafood" seafoodStubs25 seafoodLookup
    (by simp) (by decide)
  exact ⟨by rw [h.2.1]; rfl, h.2.2.2⟩

/-- C3 (amended): add, remove, and clear preserve the uniqueness of recipe
ids starting from any state satisfying it, and loading from storage yields
pairwise-distinct ids provided the persisted data itself parses to entries
with pairwise-distinct ids; arbitrary persisted input is NOT re-validated
(see the counterexample `load_duplicate_ids_cex`). -/
theorem cookbook_ops_preserve_id_nodup :
    (∀ (cookbook : List Meal) (meal : Meal), (cookbookIds cookbook).Nodup →
      (cookbookIds (addToCookbook cookbook meal).cookbook).Nodup) ∧
    (∀ (cookbook : List Meal) (mealId : String), (cookbookIds cookbook).Nodup →
      (cookbookIds (removeFromCookbook cookbook mealId).cookbook).Nodup) ∧
    (∀ (cookbook : List Meal) (confirmed : Bool), (cookbookIds cookbook).Nodup →
      (cookbookIds (clearCookbook cookbook confirmed).cookbook).Nodup) ∧
    (∀ stored : Option String,
      (∀ s, stored = some s → ∀ v, parseJson s = some v → (jsonCookbookIds v).Nodup) →
      (jsonCookbookIds (loadCookbookFromStorage stored).cookbook).Nodup) := by
  refine ⟨?_, ?_, ?_, ?_⟩
  · intro cookbook meal hN
    rw [addToCookbook]
    split
    · exact hN
    · rename_i hnotin
      simp only [cookbookIds, List.map_append, List.map_cons, List.map_nil]
      rw [List.nodup_append]
      refine ⟨hN, List.nodup_singleton _, ?_⟩
      intro a ha hb
      simp only [List.mem_singleton] at hb
      subst hb
      simp only [cookbookIds, List.mem_map] at ha
      obtain ⟨m, hm, hmid⟩ := ha
      simp only [isInCookbook, List.any_eq_true, Bool.not_eq_true] at hnotin
      exact hnotin ⟨m, hm, by simp [hmid]⟩
  · intro cookbook mealId hN
    rw [removeFromCookbook]
    cases hf : cookbook.findIdx? (fun m => m.idMeal == mealId) with
    | none => exact hN
    | some index =>
        simp only [cookbookIds]
        exact hN.sublist ((List.eraseIdx_sublist cookbook index).map Meal.idMeal)
  · intro cookbook confirmed hN
    rw [clearCookbook]
    split
    · exact hN
    · split
      · simp [cookbookIds]
      · exact hN
  · intro stored hstored
    cases stored with
    | none => simp [loadCookbookFromStorage, jsonCookbookIds]
    | some s =>
        by_cases hs : s = ""
        · simp [loadCookbookFromStorage, hs, jsonCookbookIds]
        · cases hp : parseJson s with
          | none => simp [loadCookbookFromStorage, hs, hp, jsonCookbookIds]
          | some v =>
              by_cases hr : renderCookbookThrows v = true
              · simp [loadCookbookFromStorage, hs, hp, hr, jsonCookbookIds]
              · simp only [loadCookbookFromStorage, hs, hp, if_neg hs,
                  Bool.not_eq_true] at hr ⊢
                simp only [hr, Bool.false_eq_true, if_false]
                exact hstored s rfl v hp

/-- Witness for C3: add preserves distinctness on a concrete cookbook, and
loading a persisted array with distinct ids yields distinct ids. -/
theorem cookbook_ops_preserve_id_nodup_witness :
    (cookbookIds (addToCookbook [sampleMealA] sampleMealA).cookbook).Nodup ∧
    (jsonCookbookIds (loadCookbookFromStorage
        (some "[\x7b\"idMeal\":\"1\"\x7d]")).cookbook).Nodup := by
  constructor
  · exact cookbook_ops_preserve_id_nodup.1 [sampleMealA] sampleMealA (by decide)
  · apply cookbook_ops_preserve_id_nodup.2.2.2
    intro s hs v hv
    cases hs
    have hpv : parseJson "[\x7b\"idMeal\":\"1\"\x7d]" =
        some (Json.arr [Json.obj [("idMeal", Json.str "1")]]) := rfl
    rw [hpv] at hv
    cases hv
    simp [jsonCookbookIds]

/-- Counterexample to C3 as stated: loading the persisted string
`[{"idMeal":"1"},{"idMeal":"1"}]` (a valid JSON array with a duplicated
recipe id) installs a cookbook whose recipe ids are NOT pairwise
distinct — `loadCookbookFromStorage` performs no de-duplication. -/
theorem load_duplicate_ids_cex :
    jsonCookbookIds (loadCookbookFromStorage
        (some "[\x7b\"idMeal\":\"1\"\x7d,\x7b\"idMeal\":\"1\"\x7d]")).cookbook =
      [some (Json.str "1"), some (Json.str "1")] ∧
    ¬ (jsonCookbookIds (loadCookbookFromStorage
        (some "[\x7b\"idMeal\":\"1\"\x7d,\x7b\"idMeal\":\"1\"\x7d]")).cookbook).Nodup := by
  have hids : jsonCookbookIds (loadCookbookFromStorage
      (some "[\x7b\"idMeal\":\"1\"\x7d,\x7b\"idMeal\":\"1\"\x7d]")).cookbook =
      [some (Json.str "1"), some (Json.str "1")] := rfl
  refine ⟨hids, ?_⟩
  intro hN
  rw [hids] at hN
  exact (List.nodup_cons.mp hN).1 (List.mem_singleton_self _)

/-- A non-array value survives `renderCookbook` without a throw only when
its `length` property compares `=== 0`. -/
theorem survives_render_length_zero (v : Json) (hna : isJsonArray v = false)
    (hr : renderCookbookThrows v = false) :
    isNumZero (getPropOpt v "length") = true := by
  cases v with
  | null =>
      rw [(rfl : renderCookbookThrows Json.null = true)] at hr
      exact Bool.noConfusion hr
  | bool b =>
      rw [(rfl : renderCookbookThrows (Json.bool b) = true)] at hr
      exact Bool.noConfusion hr
  | num n =>
      rw [(rfl : renderCookbookThrows (Json.num n) = true)] at hr
      exact Bool.noConfusion hr
  | str s =>
      by_cases hz : isNumZero (some (Json.num (s.length : Int))) = true
      · simpa [getPropOpt, getProp] using hz
      · have hthrows : renderCookbookThrows (Json.str s) = true := by
          simp [renderCookbookThrows, getProp, hz]
        rw [hthrows] at hr
        exact Bool.noConfusion hr
  | arr xs => simp [isJsonArray] at hna
  | obj fields =>
      by_cases hz : isNumZero (lookupField fields "length") = true
      · simpa [getPropOpt, getProp] using hz
      · have hthrows : renderCookbookThrows (Json.obj fields) = true := by
          simp [renderCookbookThrows, getProp, hz]
        rw [hthrows] at hr
        exact Bool.noConfusion hr

/-- C6 (amended): `loadCookbookFromStorage` raises no user-visible notice
and writes nothing back to storage for every persisted value; on a missing
value or on malformed (unparseable) data the cookbook is the empty
collection; and the resulting cookbook is a well-formed collection (an
array) except when the persisted data is valid non-array JSON whose
`length` property compares `=== 0` (such as the JSON text `""`), which is
installed as-is (see `loadCookbook_nonarray_cex`). -/
theorem loadCookbook_amended (stored : Option String) :
    (loadCookbookFromStorage stored).toasts = [] ∧
    (loadCookbookFromStorage stored).storageWrite = false ∧
    (stored = none → (loadCookbookFromStorage stored).cookbook = Json.arr []) ∧
    (∀ s, stored = some s → parseJson s = none →
      (loadCookbookFromStorage stored).cookbook = Json.arr []) ∧
    (isJsonArray (loadCookbookFromStorage stored).cookbook = true ∨
      ∃ s v, stored = some s ∧ parseJson s = some v ∧ isJsonArray v = false ∧
        isNumZero (getPropOpt v "length") = true ∧
        (loadCookbookFromStorage stored).cookbook = v) := by
  cases stored with
  | none =>
      refine ⟨rfl, rfl, fun _ => rfl, ?_, Or.inl rfl⟩
      intro s hs
      cases hs
  | some s =>
      by_cases hs : s = ""
      · subst hs
        refine ⟨rfl, rfl, ?_, ?_, Or.inl rfl⟩
        · intro h
          cases h
        · intro t ht _
          cases ht
          rfl
      · cases hp : parseJson s with
        | none =>
            have hload : loadCookbookFromStorage (some s) =
                { cookbook := Json.arr [], toasts := [], storageWrite := false } := by
              simp [loadCookbookFromStorage, hs, hp]
            refine ⟨by rw [hload], by rw [hload], ?_, ?_,
              Or.inl (by rw [hload]; rfl)⟩
            · intro h
              cases h
            · intro t ht _
              cases ht
              rw [hload]
        | some v =>
            by_cases hr : renderCookbookThrows v = true
            · have hload : loadCookbookFromStorage (some s) =
                  { cookbook := Json.arr [], toasts := [], storageWrite := false } := by
                simp [loadCookbookFromStorage, hs, hp, hr]
              refine ⟨by rw [hload], by rw [hload], ?_, ?_,
                Or.inl (by rw [hload]; rfl)⟩
              · intro h
                cases h
              · intro t ht hpt
                cases ht
                rw [hpt] at hp
                cases hp
            · have hload : loadCookbookFromStorage (some s) =
                  { cookbook := v, toasts := [], storageWrite := false } := by
                simp [loadCookbookFromStorage, hs, hp, hr]
              refine ⟨by rw [hload], by rw [hload], ?_, ?_, ?_⟩
              · intro h
                cases h
              · intro t ht hpt
                cases ht
                rw [hpt] at hp
                cases hp
              · by_cases hna : isJsonArray v = true
                · exact Or.inl (by rw [hload]; exact hna)
                · exact Or.inr ⟨s, v, rfl, hp, by simpa using hna,
                    survives_render_length_zero v (by simpa using hna)
                      (by simpa using hr), by rw [hload]⟩

/-- Witness for C6: a missing value and a malformed value both leave the
cookbook empty. -/
theorem loadCookbook_amended_witness :
    (loadCookbookFromStorage none).cookbook = Json.arr [] ∧
    (loadCookbookFromStorage (some "xyz")).cookbook = Json.arr [] :=
  ⟨(loadCookbook_amended none).2.2.1 rfl,
   (loadCookbook_amended (some "xyz")).2.2.2.1 "xyz" rfl rfl⟩

/-- Counterexample to C6 as stated: the persisted two-character string `""`
is valid non-array JSON; loading it installs the JavaScript empty string as
`state.cookbook` (its `length` is `0`, so `renderCookbook` does not throw),
which is not a well-formed collection. -/
theorem loadCookbook_nonarray_cex :
    (loadCookbookFromStorage (some "\"\"")).cookbook = Json.str "" ∧
    isJsonArray (Json.str "") = false :=
  ⟨rfl, rfl⟩

theorem skipWs_cons_of_ws (c : Char) (cs : List Char)
    (h : isJsonWsChar c = true) : skipWs (c :: cs) = skipWs cs := by
  rw [skipWs, if_pos]
  simpa [isJsonWsChar] using h

theorem skipWs_cons_of_not (c : Char) (cs : List Char)
    (h : isJsonWsChar c = false) : skipWs (c :: cs) = c :: cs := by
  simp only [isJsonWsChar] at h
  rw [skipWs]
  simp [h]

theorem skipWs_append_ws (l cs : List Char)
    (h : ∀ c ∈ l, isJsonWsChar c = true) :
    skipWs (l ++ cs) = skipWs cs := by
  induction l with
  | nil => simp
  | cons a l ih =>
      rw [List.cons_append, skipWs_cons_of_ws a _ (h a (by simp))]
      exact ih fun c hc => h c (by simp [hc])

theorem quoteJsonString_data (s : String) :
    (quoteJsonString s).data = '"' :: (escList s.data ++ ['"']) := by
  rw [quoteJsonString, String.data_append, String.data_append]
  rfl


theorem hexVal_hexDigit : ∀ n, n < 16 → hexVal (hexDigit n) = some n := by decide

theorem parseEscape_control (c : Char) (r : List Char) (hlt : c.toNat < 32) :
    parseEscape ('u' :: '0' :: '0' :: hexDigit (c.toNat / 16) ::
        hexDigit (c.toNat % 16) :: r) = some (c, r) := by
  rw [parseEscape.eq_def]
  simp only [reduceIte, reduceCtorEq, Char.reduceEq]
  rw [hexVal_hexDigit (c.toNat / 16) (by omega),
    hexVal_hexDigit (c.toNat % 16) (by omega)]
  simp only [show hexVal '0' = some 0 from rfl]
  simp
  rw [show c.toNat / 16 * 16 + c.toNat % 16 = c.toNat from by omega,
    Char.ofNat_toNat]

theorem escapeJsonChar_spec (c : Char) :
    (escapeJsonChar c = [c] ∧ c ≠ '"' ∧ c ≠ '\\') ∨
    (∃ tail, escapeJsonChar c = '\\' :: tail ∧
      ∀ r, parseEscape (tail ++ r) = some (c, r)) := by
  by_cases h1 : c = '"'
  · exact Or.inr ⟨['"'], by subst h1; rfl, fun r => by subst h1; rfl⟩
  by_cases h2 : c = '\\'
  · exact Or.inr ⟨['\\'], by subst h2; rfl, fun r => by subst h2; rfl⟩
  by_cases h3 : c = '\x08'
  · exact Or.inr ⟨['b'], by subst h3; rfl, fun r => by subst h3; rfl⟩
  by_cases h4 : c = '\x09'
  · exact Or.inr ⟨['t'], by subst h4; rfl, fun r => by subst h4; rfl⟩
  by_cases h5 : c = '\x0a'
  · exact Or.inr ⟨['n'], by subst h5; rfl, fun r => by subst h5; rfl⟩
  by_cases h6 : c = '\x0c'
  · exact Or.inr ⟨['f'], by subst h6; rfl, fun r => by subst h6; rfl⟩
  by_cases h7 : c = '\x0d'
  · exact Or.inr ⟨['r'], by subst h7; rfl, fun r => by subst h7; rfl⟩
  by_cases hlt : c.toNat < 32
  · refine Or.inr ⟨['u', '0', '0', hexDigit (c.toNat / 16), hexDigit (c.toNat % 16)],
      ?_, fun r => parseEscape_control c r hlt⟩
    rw [escapeJsonChar]
    simp [h1, h2, h3, h4, h5, h6, h7, hlt]
  · refine Or.inl ⟨?_, h1, h2⟩
    rw [escapeJsonChar]
    simp [h1, h2, h3, h4, h5, h6, h7, hlt]

theorem parseStringBody_round (cs : List Char) : ∀ (fuel : Nat) (acc rest : List Char),
    (escList cs).length + 1 ≤ fuel →
    parseStringBody fuel (escList cs ++ '"' :: rest) acc =
      some (String.mk (acc.reverse ++ cs), rest) := by
  induction cs with
  | nil =>
      intro fuel acc rest hf
      cases fuel with
      | zero => omega
      | succ f => simp [escList, parseStringBody]
  | cons c cs ih =>
      intro fuel acc rest hf
      have hesc : escList (c :: cs) = escapeJsonChar c ++ escList cs := by
        simp [escList]
      rw [hesc] at hf ⊢
      rcases escapeJsonChar_spec c with ⟨he, hq, hb⟩ | ⟨tail, he, hpe⟩
      · rw [he] at hf ⊢
        simp only [List.length_append, List.length_cons, List.length_nil] at hf
        cases fuel with
        | zero => omega
        | succ f =>
            simp only [List.cons_append, List.nil_append]
            rw [parseStringBody.eq_def]
            simp only [if_neg hq, if_neg hb]
            rw [ih f (c :: acc) rest (by omega)]
            simp
      · rw [he] at hf ⊢
        simp only [List.length_append, List.length_cons] at hf
        cases fuel with
        | zero => omega
        | succ f =>
            simp only [List.cons_append, List.append_assoc]
            rw [parseStringBody.eq_def]
            simp only [reduceCtorEq, Char.reduceEq, reduceIte]
            simp only [hpe]
            rw [ih f (c :: acc) rest (by omega)]
            simp

theorem stringifyElems_data (ind2 ind : String) (rest : List Char) :
    ∀ (xs : List Json) (x : Json),
    (stringifyElems ind2 x xs).data ++ '\x0a' :: (ind.data ++ ']' :: rest) =
      ind2.data ++ (elemsCore ind2 ind x xs ++ rest) := by
  intro xs
  induction xs with
  | nil =>
      intro x
      rw [stringifyElems, elemsCore]
      simp [String.data_append, List.append_assoc]
  | cons y ys ih =>
      intro x
      rw [stringifyElems, elemsCore]
      simp only [String.data_append, List.append_assoc, List.cons_append,
        List.nil_append]
      rw [ih y]

theorem stringifyFields_data (ind2 ind : String) (rest : List Char) :
    ∀ (fs : List (String × Json)) (k : String) (v : Json),
    (stringifyFields ind2 k v fs).data ++ '\x0a' :: (ind.data ++ '\x7d' :: rest) =
      ind2.data ++ (fieldsCore ind2 ind k v fs ++ rest) := by
  intro fs
  induction fs with
  | nil =>
      intro k v
      rw [stringifyFields, fieldsCore]
      simp [String.data_append, List.append_assoc]
  | cons g gs ih =>
      intro k v
      obtain ⟨k2, v2⟩ := g
      rw [stringifyFields, fieldsCore]
      simp only [String.data_append, List.append_assoc, List.cons_append,
        List.nil_append]
      rw [ih k2 v2]

theorem stringifyVal_head (ind : String) (v : Json) (hnf : numFree v = true) :
    ∃ c cs2, (stringifyVal ind v).data = c :: cs2 ∧ isJsonWsChar c = false ∧
      c ≠ ']' := by
  cases v with
  | null => exact ⟨'n', ['u', 'l', 'l'], by rw [stringifyVal], by decide, by decide⟩
  | bool b =>
      cases b with
      | true => exact ⟨'t', ['r', 'u', 'e'], by rw [stringifyVal], by decide, by decide⟩
      | false => exact ⟨'f', ['a', 'l', 's', 'e'], by rw [stringifyVal], by decide, by decide⟩
  | num n => simp [numFree] at hnf
  | str s =>
      exact ⟨'"', escList s.data ++ ['"'], by rw [stringifyVal]; exact quoteJsonString_data s,
        by decide, by decide⟩
  | arr xs =>
      cases xs with
      | nil => exact ⟨'[', [']'], by rw [stringifyVal], by decide, by decide⟩
      | cons x xs =>
          refine ⟨'[', '\x0a' :: ((stringifyElems (ind ++ "  ") x xs).data ++
            '\x0a' :: (ind.data ++ [']'])), ?_, by decide, by decide⟩
          rw [stringifyVal]
          simp [String.data_append, List.append_assoc]
  | obj fs =>
      cases fs with
      | nil => exact ⟨'\x7b', ['\x7d'], by rw [stringifyVal], by decide, by decide⟩
      | cons g gs =>
          obtain ⟨k, v⟩ := g
          refine ⟨'\x7b', '\x0a' :: ((stringifyFields (ind ++ "  ") k v gs).data ++
            '\x0a' :: (ind.data ++ ['\x7d'])), ?_, by decide, by decide⟩
          rw [stringifyVal]
          simp [String.data_append, List.append_assoc]

theorem parse_stringify_null (ws rest : List Char) (fuel : Nat)
    (hws : ∀ c ∈ ws, isJsonWsChar c = true) (hf : 1 ≤ fuel) :
    parseValue fuel (ws ++ ('n' :: 'u' :: 'l' :: 'l' :: rest)) = some (.null, rest) := by
  cases fuel with
  | zero => omega
  | succ f =>
      rw [parseValue.eq_2]
      rw [skipWs_append_ws ws _ hws, skipWs_cons_of_not _ _ (by decide)]
      simp [parseNullBody]

theorem parse_stringify_true (ws rest : List Char) (fuel : Nat)
    (hws : ∀ c ∈ ws, isJsonWsChar c = true) (hf : 1 ≤ fuel) :
    parseValue fuel (ws ++ ('t' :: 'r' :: 'u' :: 'e' :: rest)) =
      some (.bool true, rest) := by
  cases fuel with
  | zero => omega
  | succ f =>
      rw [parseValue.eq_2]
      rw [skipWs_append_ws ws _ hws, skipWs_cons_of_not _ _ (by decide)]
      simp [parseTrueBody]

theorem parse_stringify_false (ws rest : List Char) (fuel : Nat)
    (hws : ∀ c ∈ ws, isJsonWsChar c = true) (hf : 1 ≤ fuel) :
    parseValue fuel (ws ++ ('f' :: 'a' :: 'l' :: 's' :: 'e' :: rest)) =
      some (.bool false, rest) := by
  cases fuel with
  | zero => omega
  | succ f =>
      rw [parseValue.eq_2]
      rw [skipWs_append_ws ws _ hws, skipWs_cons_of_not _ _ (by decide)]
      simp [parseFalseBody]

theorem parse_stringify_str (s : String) (ws rest : List Char) (fuel : Nat)
    (hws : ∀ c ∈ ws, isJsonWsChar c = true)
    (hf : (escList s.data).length + 2 ≤ fuel) :
    parseValue fuel (ws ++ ((quoteJsonString s).data ++ rest)) =
      some (.str s, rest) := by
  cases fuel with
  | zero => omega
  | succ f =>
      rw [quoteJsonString_data]
      simp only [List.cons_append]
      rw [parseValue.eq_2]
      rw [skipWs_append_ws ws _ hws, skipWs_cons_of_not _ _ (by decide)]
      simp only [reduceIte, Char.reduceEq]
      rw [List.append_assoc, List.singleton_append]
      rw [parseStringBody_round s.data (f+1) [] rest (by omega)]
      simp

theorem parse_stringify_arr_nil (ws rest : List Char) (fuel : Nat)
    (hws : ∀ c ∈ ws, isJsonWsChar c = true) (hf : 1 ≤ fuel) :
    parseValue fuel (ws ++ ('[' :: ']' :: rest)) = some (.arr [], rest) := by
  cases fuel with
  | zero => omega
  | succ f =>
      rw [parseValue.eq_2]
      rw [skipWs_append_ws ws _ hws, skipWs_cons_of_not _ _ (by decide)]
      simp only [reduceIte, Char.reduceEq, Char.isDigit]
      rw [skipWs_cons_of_not _ _ (by decide)]
      simp

theorem parse_stringify_obj_nil (ws rest : List Char) (fuel : Nat)
    (hws : ∀ c ∈ ws, isJsonWsChar c = true) (hf : 1 ≤ fuel) :
    parseValue fuel (ws ++ ('\x7b' :: '\x7d' :: rest)) = some (.obj [], rest) := by
  cases fuel with
  | zero => omega
  | succ f =>
      rw [parseValue.eq_2]
      rw [skipWs_append_ws ws _ hws, skipWs_cons_of_not _ _ (by decide)]
      simp only [reduceIte, Char.reduceEq, Char.isDigit]
      rw [skipWs_cons_of_not _ _ (by decide)]
      simp

theorem spaces_append_two (ind : String) (hind : ∀ c ∈ ind.data, c = ' ') :
    ∀ c ∈ (ind ++ "  ").data, c = ' ' := by
  intro c hc
  rw [String.data_append] at hc
  rcases List.mem_append.mp hc with h | h
  · exact hind c h
  · rw [show ("  " : String).data = [' ', ' '] from rfl] at h
    simpa using h

theorem spaces_all_ws (l : List Char) (h : ∀ c ∈ l, c = ' ') :
    ∀ c ∈ l, isJsonWsChar c = true := by
  intro c hc
  rw [h c hc]
  decide

theorem elemsCore_head (ind2 ind : String) (x : Json) (xs : List Json) :
    ∃ t, elemsCore ind2 ind x xs = (stringifyVal ind2 x).data ++ t := by
  cases xs with
  | nil => exact ⟨_, rfl⟩
  | cons y ys => exact ⟨_, rfl⟩

theorem parseValue_skipWs (fuel : Nat) (l cs : List Char)
    (h : ∀ c ∈ l, isJsonWsChar c = true) :
    parseValue fuel (l ++ cs) = parseValue fuel cs := by
  cases fuel with
  | zero => rfl
  | succ f => rw [parseValue.eq_2, parseValue.eq_2, skipWs_append_ws l cs h]

theorem parseValue_lbracket (f : Nat) (tail : List Char) :
    parseValue (f+1) ('[' :: tail) =
      (match skipWs tail with
       | ']' :: r => some (Json.arr [], r)
       | other => parseElems f other []) := rfl

theorem parseValue_lbrace (f : Nat) (tail : List Char) :
    parseValue (f+1) ('\x7b' :: tail) =
      (match skipWs tail with
       | '\x7d' :: r => some (Json.obj [], r)
       | other => parseFields f other []) := rfl


theorem parseElems_step (f : Nat) (cs : List Char) (acc : List Json) (v : Json)
    (T : List Char) (h : parseValue f cs = some (v, T)) :
    parseElems (f+1) cs acc =
      (match skipWs T with
       | ',' :: r => parseElems f r (v :: acc)
       | ']' :: r => some (Json.arr (v :: acc).reverse, r)
       | _ => none) := by
  rw [parseElems.eq_2, h]


theorem parseFields_comma (f : Nat) (cs tail : List Char)
    (acc : List (String × Json)) (key : String) (rest2 rest3x rest4 r : List Char)
    (v : Json)
    (hsk : skipWs cs = '"' :: tail)
    (hstr : parseStringBody (f+1) tail [] = some (key, rest2))
    (hsk2 : skipWs rest2 = ':' :: rest3x)
    (hval : parseValue f rest3x = some (v, rest4))
    (hsk3 : skipWs rest4 = ',' :: r) :
    parseFields (f+1) cs acc = parseFields f r ((key, v) :: acc) := by
  rw [parseFields.eq_2, hsk]
  simp only [hstr, hsk2, hval, hsk3]

theorem parseFields_rbrace (f : Nat) (cs tail : List Char)
    (acc : List (String × Json)) (key : String) (rest2 rest3x rest4 r : List Char)
    (v : Json)
    (hsk : skipWs cs = '"' :: tail)
    (hstr : parseStringBody (f+1) tail [] = some (key, rest2))
    (hsk2 : skipWs rest2 = ':' :: rest3x)
    (hval : parseValue f rest3x = some (v, rest4))
    (hsk3 : skipWs rest4 = '\x7d' :: r) :
    parseFields (f+1) cs acc = some (.obj ((key, v) :: acc).reverse, r) := by
  rw [parseFields.eq_2, hsk]
  simp only [hstr, hsk2, hval, hsk3]


theorem parse_stringify_main (n : Nat) :
    (∀ (v : Json) (ind : String) (ws rest : List Char) (fuel : Nat),
      sizeOf v ≤ n → numFree v = true →
      (∀ c ∈ ind.data, c = ' ') →
      (∀ c ∈ ws, isJsonWsChar c = true) →
      2 * (ws.length + (stringifyVal ind v).data.length) + 2 ≤ fuel →
      parseValue fuel (ws ++ ((stringifyVal ind v).data ++ rest)) = some (v, rest)) ∧
    (∀ (x : Json) (xs : List Json) (ind2 ind : String) (ws rest : List Char)
        (acc : List Json) (fuel : Nat),
      sizeOf x + sizeOf xs ≤ n → (numFree x && numFreeList xs) = true →
      (∀ c ∈ ind2.data, c = ' ') → (∀ c ∈ ind.data, c = ' ') →
      (∀ c ∈ ws, isJsonWsChar c = true) →
      2 * (ws.length + (elemsCore ind2 ind x xs).length) + 2 ≤ fuel →
      parseElems fuel (ws ++ (elemsCore ind2 ind x xs ++ rest)) acc =
        some (.arr (acc.reverse ++ x :: xs), rest)) ∧
    (∀ (k : String) (v : Json) (fs : List (String × Json)) (ind2 ind : String)
        (ws rest : List Char) (acc : List (String × Json)) (fuel : Nat),
      sizeOf v + sizeOf fs ≤ n → (numFree v && numFreeFields fs) = true →
      (∀ c ∈ ind2.data, c = ' ') → (∀ c ∈ ind.data, c = ' ') →
      (∀ c ∈ ws, isJsonWsChar c = true) →
      2 * (ws.length + (fieldsCore ind2 ind k v fs).length) + 2 ≤ fuel →
      parseFields fuel (ws ++ (fieldsCore ind2 ind k v fs ++ rest)) acc =
        some (.obj (acc.reverse ++ (k, v) :: fs), rest)) := by
  induction n using Nat.strong_induction_on with
  | _ n ih =>
  refine ⟨?_, ?_, ?_⟩
  · -- values
    intro v ind ws rest fuel hsz hnf hind hws hf
    cases v with
    | null =>
        rw [stringifyVal] at hf ⊢
        rw [show ("null" : String).data = ['n', 'u', 'l', 'l'] from rfl] at hf ⊢
        simp only [List.cons_append, List.nil_append] at hf ⊢
        exact parse_stringify_null ws rest fuel hws (by simp at hf; omega)
    | bool b =>
        cases b with
        | true =>
            rw [stringifyVal] at hf ⊢
            rw [show ("true" : String).data = ['t', 'r', 'u', 'e'] from rfl] at hf ⊢
            simp only [List.cons_append, List.nil_append] at hf ⊢
            exact parse_stringify_true ws rest fuel hws (by simp at hf; omega)
        | false =>
            rw [stringifyVal] at hf ⊢
            rw [show ("false" : String).data = ['f', 'a', 'l', 's', 'e'] from rfl] at hf ⊢
            simp only [List.cons_append, List.nil_append] at hf ⊢
            exact parse_stringify_false ws rest fuel hws (by simp at hf; omega)
    | num m => simp [numFree] at hnf
    | str s =>
        rw [stringifyVal] at hf ⊢
        have hq := congrArg List.length (quoteJsonString_data s)
        simp only [List.length_cons, List.length_append, List.length_nil] at hq
        exact parse_stringify_str s ws rest fuel hws (by omega)
    | arr xs =>
        cases xs with
        | nil =>
            rw [stringifyVal] at hf ⊢
            rw [show ("[]" : String).data = ['[', ']'] from rfl] at hf ⊢
            simp only [List.cons_append, List.nil_append] at hf ⊢
            exact parse_stringify_arr_nil ws rest fuel hws (by simp at hf; omega)
        | cons x xs =>
            have hsz2 : sizeOf x + sizeOf xs < n := by
              simp at hsz
              omega
            obtain ⟨ihv, ihe, ihf2⟩ := ih (sizeOf x + sizeOf xs) hsz2
            rw [numFree, numFreeList] at hnf
            have hind2 : ∀ c ∈ (ind ++ "  ").data, c = ' ' :=
              spaces_append_two ind hind
            rw [stringifyVal] at hf ⊢
            have hdata : ("[\x0a" ++ stringifyElems (ind ++ "  ") x xs ++
                "\x0a" ++ ind ++ "]").data =
                '[' :: '\x0a' :: ((stringifyElems (ind ++ "  ") x xs).data ++
                  '\x0a' :: (ind.data ++ [']'])) := by
              simp [String.data_append]
            rw [hdata] at hf ⊢
            simp only [List.cons_append, List.append_assoc,
              List.singleton_append, List.nil_append] at hf ⊢
            rw [stringifyElems_data (ind ++ "  ") ind rest xs x]
            cases fuel with
            | zero => omega
            | succ f =>
                rw [show ws ++ '[' :: '\x0a' :: ((ind ++ "  ").data ++
                    (elemsCore (ind ++ "  ") ind x xs ++ rest)) =
                    ws ++ ('[' :: '\x0a' :: ((ind ++ "  ").data ++
                      (elemsCore (ind ++ "  ") ind x xs ++ rest))) from rfl,
                  parseValue_skipWs _ ws _ hws, parseValue_lbracket]
                rw [skipWs_cons_of_ws _ _ (by decide),
                  skipWs_append_ws _ _ (spaces_all_ws _ hind2)]
                obtain ⟨t, ht⟩ := elemsCore_head (ind ++ "  ") ind x xs
                obtain ⟨c0, cs0, hval, hnws0, hne0⟩ :=
                  stringifyVal_head (ind ++ "  ") x (by simp at hnf; exact hnf.1)
                rw [ht, hval]
                simp only [List.cons_append, List.append_assoc]
                rw [skipWs_cons_of_not _ _ hnws0]
                have hlen1 := congrArg List.length
                  (stringifyElems_data (ind ++ "  ") ind rest xs x)
                have hlen2 : (ind ++ "  ").data.length = ind.data.length + 2 := by
                  rw [String.data_append]
                  simp
                have hlen3 := congrArg List.length ht
                have hlen4 := congrArg List.length hval
                simp only [List.length_append, List.length_cons] at hlen1 hlen3 hlen4 hf
                split
                · rename_i r heq
                  injection heq with h1 h2
                  exact absurd h1 hne0
                · rw [← List.cons_append, ← hval, ← List.append_assoc, ← ht]
                  have hcall := ihe x xs (ind ++ "  ") ind [] rest [] f
                    (le_refl _) hnf hind2 hind (by simp) (by omega)
                  simpa using hcall
    | obj fs =>
        cases fs with
        | nil =>
            rw [stringifyVal] at hf ⊢
            rw [show ("\x7b\x7d" : String).data = ['\x7b', '\x7d'] from rfl] at hf ⊢
            simp only [List.cons_append, List.nil_append] at hf ⊢
            exact parse_stringify_obj_nil ws rest fuel hws (by simp at hf; omega)
        | cons g gs =>
            obtain ⟨k, v⟩ := g
            have hsz2 : sizeOf v + sizeOf gs < n := by
              simp at hsz
              omega
            obtain ⟨ihv, ihe, ihf2⟩ := ih (sizeOf v + sizeOf gs) hsz2
            rw [numFree, numFreeFields] at hnf
            have hind2 : ∀ c ∈ (ind ++ "  ").data, c = ' ' :=
              spaces_append_two ind hind
            rw [stringifyVal] at hf ⊢
            have hdata : ("\x7b\x0a" ++ stringifyFields (ind ++ "  ") k v gs ++
                "\x0a" ++ ind ++ "\x7d").data =
                '\x7b' :: '\x0a' :: ((stringifyFields (ind ++ "  ") k v gs).data ++
                  '\x0a' :: (ind.data ++ ['\x7d'])) := by
              simp [String.data_append]
            rw [hdata] at hf ⊢
            simp only [List.cons_append, List.append_assoc,
              List.singleton_append, List.nil_append] at hf ⊢
            rw [stringifyFields_data (ind ++ "  ") ind rest gs k v]
            cases fuel with
            | zero => omega
            | succ f =>
                rw [show ws ++ '\x7b' :: '\x0a' :: ((ind ++ "  ").data ++
                    (fieldsCore (ind ++ "  ") ind k v gs ++ rest)) =
                    ws ++ ('\x7b' :: '\x0a' :: ((ind ++ "  ").data ++
                      (fieldsCore (ind ++ "  ") ind k v gs ++ rest))) from rfl,
                  parseValue_skipWs _ ws _ hws, parseValue_lbrace]
                rw [skipWs_cons_of_ws _ _ (by decide),
                  skipWs_append_ws _ _ (spaces_all_ws _ hind2)]
                obtain ⟨t, ht⟩ : ∃ t, fieldsCore (ind ++ "  ") ind k v gs =
                    '"' :: t := by
                  cases gs with
                  | nil =>
                      rw [fieldsCore, quoteJsonString_data]
                      exact ⟨_, List.cons_append '"' _ _⟩
                  | cons g2 gs2 =>
                      obtain ⟨k2, v2⟩ := g2
                      rw [fieldsCore, quoteJsonString_data]
                      exact ⟨_, List.cons_append '"' _ _⟩
                rw [ht]
                simp only [List.cons_append]
                rw [skipWs_cons_of_not _ _ (by decide)]
                have hlen1 := congrArg List.length
                  (stringifyFields_data (ind ++ "  ") ind rest gs k v)
                have hlen2 : (ind ++ "  ").data.length = ind.data.length + 2 := by
                  rw [String.data_append]
                  simp
                simp only [List.length_append, List.length_cons] at hlen1 hf
                split
                · rename_i r heq
                  injection heq with h1 h2
                  exact absurd h1 (by decide)
                · rw [← List.cons_append, ← ht]
                  have hcall := ihf2 k v gs (ind ++ "  ") ind [] rest [] f
                    (le_refl _) hnf hind2 hind (by simp) (by omega)
                  simpa using hcall
  · -- elements
    intro x xs ind2 ind ws rest acc fuel hsz hnf hind2 hind hws hf
    cases fuel with
    | zero => omega
    | succ f =>
        cases xs with
        | nil =>
            rw [elemsCore] at hf ⊢
            simp only [List.append_assoc, List.cons_append,
              List.singleton_append, List.nil_append] at hf ⊢
            obtain ⟨ihv, _, _⟩ := ih (sizeOf x) (by simp at hsz; omega)
            have hnfx : numFree x = true := by
              rw [numFreeList] at hnf
              simpa using hnf
            simp only [List.length_append, List.length_cons] at hf
            rw [parseElems_step f _ acc x _
              (ihv x ind2 ws ('\x0a' :: (ind.data ++ ']' :: rest)) f
                (le_refl _) hnfx hind2 hws (by omega))]
            rw [skipWs_cons_of_ws _ _ (by decide),
              skipWs_append_ws _ _ (spaces_all_ws _ hind),
              skipWs_cons_of_not _ _ (by decide)]
            simp
        | cons y ys =>
            rw [elemsCore] at hf ⊢
            simp only [List.append_assoc, List.cons_append,
              List.singleton_append, List.nil_append] at hf ⊢
            obtain ⟨ihv, _, _⟩ := ih (sizeOf x) (by simp at hsz; omega)
            obtain ⟨_, ihe, _⟩ := ih (sizeOf y + sizeOf ys) (by simp at hsz; omega)
            rw [numFreeList] at hnf
            simp only [Bool.and_eq_true] at hnf
            have hnfx : numFree x = true := hnf.1
            have hnfyys : (numFree y && numFreeList ys) = true := by
              simp [hnf.2.1, hnf.2.2]
            simp only [List.length_append, List.length_cons] at hf
            rw [parseElems_step f _ acc x _
              (ihv x ind2 ws
                (',' :: '\x0a' :: (ind2.data ++ (elemsCore ind2 ind y ys ++ rest))) f
                (le_refl _) hnfx hind2 hws (by omega))]
            rw [skipWs_cons_of_not _ _ (by decide)]
            have hwsall : ∀ c ∈ '\x0a' :: ind2.data, isJsonWsChar c = true := by
              intro c hc
              rcases List.mem_cons.mp hc with h | h
              · subst h; decide
              · rw [hind2 c h]; decide
            have hcall := ihe y ys ind2 ind ('\x0a' :: ind2.data) rest (x :: acc) f
              (le_refl _) hnfyys hind2 hind hwsall (by simp only [List.length_cons]; omega)
            rw [show (('\x0a' :: ind2.data) ++ (elemsCore ind2 ind y ys ++ rest)) =
              '\x0a' :: (ind2.data ++ (elemsCore ind2 ind y ys ++ rest)) from rfl] at hcall
            simp [hcall, List.append_assoc]
  · -- fields
    intro k v fs ind2 ind ws rest acc fuel hsz hnf hind2 hind hws hf
    cases fuel with
    | zero => omega
    | succ f =>
        cases fs with
        | nil =>
            rw [fieldsCore, quoteJsonString_data] at hf ⊢
            simp only [List.cons_append, List.append_assoc,
              List.singleton_append, List.nil_append] at hf ⊢
            obtain ⟨ihv, _, _⟩ := ih (sizeOf v) (by simp at hsz; omega)
            have hnfv : numFree v = true := by
              rw [numFreeFields] at hnf
              simpa using hnf
            simp only [List.length_append, List.length_cons] at hf
            have hsk : skipWs (ws ++ '"' :: (escList k.data ++ '"' :: ':' :: ' ' ::
                ((stringifyVal ind2 v).data ++ '\x0a' :: (ind.data ++ '\x7d' :: rest)))) =
                '"' :: (escList k.data ++ '"' :: ':' :: ' ' ::
                ((stringifyVal ind2 v).data ++ '\x0a' :: (ind.data ++ '\x7d' :: rest))) := by
              rw [skipWs_append_ws ws _ hws, skipWs_cons_of_not _ _ (by decide)]
            have hstr : parseStringBody (f+1) (escList k.data ++ '"' :: ':' :: ' ' ::
                ((stringifyVal ind2 v).data ++ '\x0a' :: (ind.data ++ '\x7d' :: rest))) [] =
                some (k, ':' :: ' ' ::
                ((stringifyVal ind2 v).data ++ '\x0a' :: (ind.data ++ '\x7d' :: rest))) := by
              exact parseStringBody_round k.data (f+1) [] _ (by omega)
            have hval : parseValue f (' ' ::
                ((stringifyVal ind2 v).data ++ '\x0a' :: (ind.data ++ '\x7d' :: rest))) =
                some (v, '\x0a' :: (ind.data ++ '\x7d' :: rest)) := by
              have := ihv v ind2 [' '] ('\x0a' :: (ind.data ++ '\x7d' :: rest)) f
                (le_refl _) hnfv hind2
                (by intro c hc; simp at hc; subst hc; decide)
                (by simp only [List.length_cons, List.length_nil]; omega)
              simpa using this
            have hsk3 : skipWs ('\x0a' :: (ind.data ++ '\x7d' :: rest)) =
                '\x7d' :: rest := by
              rw [skipWs_cons_of_ws _ _ (by decide),
                skipWs_append_ws _ _ (spaces_all_ws _ hind),
                skipWs_cons_of_not _ _ (by decide)]
            rw [parseFields_rbrace f _ _ acc k _ _ _ rest v hsk hstr
              (skipWs_cons_of_not _ _ (by decide)) hval hsk3]
            simp
        | cons g2 gs2 =>
            obtain ⟨k2, v2⟩ := g2
            rw [fieldsCore, quoteJsonString_data] at hf ⊢
            simp only [List.cons_append, List.append_assoc,
              List.singleton_append, List.nil_append] at hf ⊢
            obtain ⟨ihv, _, _⟩ := ih (sizeOf v) (by simp at hsz; omega)
            obtain ⟨_, _, ihf⟩ := ih (sizeOf v2 + sizeOf gs2) (by simp at hsz; omega)
            rw [numFreeFields] at hnf
            simp only [Bool.and_eq_true] at hnf
            have hnfv : numFree v = true := hnf.1
            have hnf2 : (numFree v2 && numFreeFields gs2) = true := by
              simp [hnf.2.1, hnf.2.2]
            simp only [List.length_append, List.length_cons] at hf
            have hsk : skipWs (ws ++ '"' :: (escList k.data ++ '"' :: ':' :: ' ' ::
                ((stringifyVal ind2 v).data ++ ',' :: '\x0a' ::
                  (ind2.data ++ (fieldsCore ind2 ind k2 v2 gs2 ++ rest))))) =
                '"' :: (escList k.data ++ '"' :: ':' :: ' ' ::
                ((stringifyVal ind2 v).data ++ ',' :: '\x0a' ::
                  (ind2.data ++ (fieldsCore ind2 ind k2 v2 gs2 ++ rest)))) := by
              rw [skipWs_append_ws ws _ hws, skipWs_cons_of_not _ _ (by decide)]
            have hstr : parseStringBody (f+1) (escList k.data ++ '"' :: ':' :: ' ' ::
                ((stringifyVal ind2 v).data ++ ',' :: '\x0a' ::
                  (ind2.data ++ (fieldsCore ind2 ind k2 v2 gs2 ++ rest)))) [] =
                some (k, ':' :: ' ' ::
                ((stringifyVal ind2 v).data ++ ',' :: '\x0a' ::
                  (ind2.data ++ (fieldsCore ind2 ind k2 v2 gs2 ++ rest)))) := by
              exact parseStringBody_round k.data (f+1) [] _ (by omega)
            have hval : parseValue f (' ' ::
                ((stringifyVal ind2 v).data ++ ',' :: '\x0a' ::
                  (ind2.data ++ (fieldsCore ind2 ind k2 v2 gs2 ++ rest)))) =
                some (v, ',' :: '\x0a' ::
                  (ind2.data ++ (fieldsCore ind2 ind k2 v2 gs2 ++ rest))) := by
              have := ihv v ind2 [' '] (',' :: '\x0a' ::
                  (ind2.data ++ (fieldsCore ind2 ind k2 v2 gs2 ++ rest))) f
                (le_refl _) hnfv hind2
                (by intro c hc; simp at hc; subst hc; decide)
                (by simp only [List.length_cons, List.length_nil]; omega)
              simpa using this
            rw [parseFields_comma f _ _ acc k _ _ _
              ('\x0a' :: (ind2.data ++ (fieldsCore ind2 ind k2 v2 gs2 ++ rest))) v
              hsk hstr (skipWs_cons_of_not _ _ (by decide)) hval
              (skipWs_cons_of_not _ _ (by decide))]
            have hwsall : ∀ c ∈ '\x0a' :: ind2.data, isJsonWsChar c = true := by
              intro c hc
              rcases List.mem_cons.mp hc with h | h
              · subst h; decide
              · rw [hind2 c h]; decide
            have hcall := ihf k2 v2 gs2 ind2 ind ('\x0a' :: ind2.data) rest
              ((k, v) :: acc) f (le_refl _) hnf2 hind2 hind hwsall
              (by simp only [List.length_cons]; omega)
            rw [show (('\x0a' :: ind2.data) ++ (fieldsCore ind2 ind k2 v2 gs2 ++ rest)) =
              '\x0a' :: (ind2.data ++ (fieldsCore ind2 ind k2 v2 gs2 ++ rest)) from rfl] at hcall
            rw [hcall]
            simp [List.append_assoc]

theorem parseJson_stringify (v : Json) (hnf : numFree v = true) :
    parseJson (stringifyVal "" v) = some v := by
  rw [parseJson]
  obtain ⟨hval, _, _⟩ := parse_stringify_main (sizeOf v)
  have h := hval v "" [] [] (2 * (stringifyVal "" v).length + 4) (le_refl _) hnf
    (by simp) (by simp)
    (by
      have hl : (stringifyVal "" v).data.length = (stringifyVal "" v).length := rfl
      simp only [List.length_nil]
      omega)
  simp only [List.nil_append, List.append_nil] at h
  rw [h]
  simp [skipWs]

theorem numFree_str (s : String) : numFree (.str s) = true := by rw [numFree]

theorem numFree_null : numFree .null = true := by rw [numFree]

theorem numFree_obj (fs : List (String × Json)) :
    numFree (.obj fs) = numFreeFields fs := by rw [numFree]

theorem numFree_arr (xs : List Json) :
    numFree (.arr xs) = numFreeList xs := by rw [numFree]

theorem numFreeFields_cons (k : String) (v : Json) (fs : List (String × Json)) :
    numFreeFields ((k, v) :: fs) = (numFree v && numFreeFields fs) := by
  rw [numFreeFields]

theorem numFreeFields_nil : numFreeFields [] = true := by rw [numFreeFields]

theorem numFreeList_cons (x : Json) (xs : List Json) :
    numFreeList (x :: xs) = (numFree x && numFreeList xs) := by
  rw [numFreeList]

theorem numFreeList_nil : numFreeList [] = true := by rw [numFreeList]

theorem numFree_optStr (o : Option String) : numFree (optStrJson o) = true := by
  cases o with
  | none => rw [optStrJson, numFree]
  | some s => rw [optStrJson, numFree]

theorem numFree_pairs (pairs : List IngredientPair) :
    numFreeList (pairs.map fun pair => Json.obj
      [("ingredient", Json.str pair.ingredient),
       ("measure", Json.str pair.measure)]) = true := by
  induction pairs with
  | nil => rw [List.map_nil, numFreeList_nil]
  | cons p ps ih =>
      rw [List.map_cons, numFreeList_cons, ih, numFree_obj, numFreeFields_cons,
        numFreeFields_cons, numFreeFields_nil, numFree_str, numFree_str]
      rfl

theorem numFree_exportRecord (meal : Meal) :
    numFree (exportRecordJson meal) = true := by
  rw [exportRecordJson, numFree_obj, numFreeFields_cons, numFreeFields_cons,
    numFreeFields_cons, numFreeFields_cons, numFreeFields_cons,
    numFreeFields_cons, numFreeFields_cons, numFreeFields_nil,
    numFree_str, numFree_str, numFree_str, numFree_arr, numFree_pairs,
    numFree_optStr, numFree_optStr, numFree_optStr]
  rfl

theorem numFree_exportDoc (cookbook : List Meal) :
    numFree (exportJsonDoc cookbook) = true := by
  rw [exportJsonDoc, numFree_arr]
  induction cookbook with
  | nil => rw [List.map_nil, numFreeList_nil]
  | cons m ms ih =>
      rw [List.map_cons, numFreeList_cons, ih, numFree_exportRecord]
      rfl

theorem decodeIngredientPair_encode (pair : IngredientPair) :
    decodeIngredientPair (Json.obj
      [("ingredient", Json.str pair.ingredient),
       ("measure", Json.str pair.measure)]) = some pair := rfl

theorem decode_pairs (pairs : List IngredientPair) :
    (pairs.map fun pair => Json.obj
      [("ingredient", Json.str pair.ingredient),
       ("measure", Json.str pair.measure)]).mapM decodeIngredientPair =
      some pairs := by
  induction pairs with
  | nil => rfl
  | cons p ps ih =>
      rw [List.map_cons, List.mapM_cons, decodeIngredientPair_encode, ih]
      rfl

theorem decodeExportEntry_encode (meal : Meal) :
    decodeExportEntry (exportRecordJson meal) =
      some (meal.idMeal, meal.strMeal, parseIngredients meal) := by
  have h0 : decodeExportEntry (exportRecordJson meal) =
      (((parseIngredients meal).map fun pair => Json.obj
        [("ingredient", Json.str pair.ingredient),
         ("measure", Json.str pair.measure)]).mapM
          decodeIngredientPair).map
        fun pairs => (meal.idMeal, meal.strMeal, pairs) := rfl
  rw [h0, decode_pairs]
  rfl

theorem decode_export_entries (cookbook : List Meal) :
    (cookbook.map exportRecordJson).mapM decodeExportEntry =
      some (cookbook.map fun meal =>
        (meal.idMeal, meal.strMeal, parseIngredients meal)) := by
  induction cookbook with
  | nil => rfl
  | cons m ms ih =>
      rw [List.map_cons, List.mapM_cons, decodeExportEntry_encode, ih,
        List.map_cons]
      rfl

/-- C2: serializing any cookbook with the JSON export encoding
(`formatCookbookForExport` with format `json`) and parsing the text back
yields exactly the export document, and reading that document's records
gives, in order, the id, name, and normalized ingredient list (as
`parseIngredients` produces on the original entry) of every original
entry. -/
theorem export_json_roundtrip (cookbook : List Meal) (dateStr : String) :
    parseJson (formatCookbookForExport cookbook "json" dateStr) =
      some (exportJsonDoc cookbook) ∧
    decodeExportDoc (exportJsonDoc cookbook) =
      some (cookbook.map fun meal =>
        (meal.idMeal, meal.strMeal, parseIngredients meal)) := by
  constructor
  · rw [formatCookbookForExport, if_pos rfl]
    exact parseJson_stringify _ (numFree_exportDoc cookbook)
  · rw [exportJsonDoc, decodeExportDoc]
    exact decode_export_entries cookbook
